import Mathlib

/-!
Verification development for the c-ares-resolver crate: a background driver
(event loop) owning a DNS engine handle, plus three resolver facades
(callback, future, blocking) issuing queries against it.

The crate root (src/lib.rs) declares the modules and the public re-exports;
the driver and facade modules themselves (eventloop.rs, resolver.rs,
futureresolver.rs, blockingresolver.rs, error.rs) are not among the sources,
so their behaviour is modelled from the specification, as indicated on each
definition.  The public-interface data (modules and re-exports) is embedded
directly from src/lib.rs.
-/

namespace CAresResolver

/-- Modelled from the spec: error.rs is not in the sources.  Spec section 7 error
taxonomy: `engineError code` wraps an engine failure code unchanged;
`driverShutdown` means the background driver has been or is being torn down;
`pollFailure` is the internal classification of an unrecoverable poll-primitive
fault (never surfaced outward as such). -/
inductive Error where
  | engineError (code : Nat)
  | driverShutdown
  | pollFailure
  deriving DecidableEq

/-- Outcome the DNS engine reports for one query: a parsed payload or a named
failure code (spec section 6: the engine is an opaque collaborator). -/
inductive EngineResult where
  | success (payload : Nat)
  | failure (code : Nat)
  deriving DecidableEq

/-- What a completion channel (callback argument / future resolution / blocking
return) carries: a parsed result or a typed error (spec section 7). -/
inductive Completion where
  | value (payload : Nat)
  | error (e : Error)
  deriving DecidableEq

/-- Conversion applied at the single completion site: engine successes become
values, engine failure codes are passed through unchanged as typed errors. -/
def Completion.ofEngine : EngineResult → Completion
  | .success p => .value p
  | .failure c => .error (.engineError c)

/-- Modelled from the spec: eventloop.rs is not in the sources.  Driver state:
whether the loop is still running, the pending queries (by id) whose callbacks
the engine still owes, and the sequence of completions delivered so far (the
only delivery channel — each entry is one callback invocation). -/
structure DriverState where
  running : Bool
  pending : List Nat
  completed : List (Nat × Completion)
  deriving DecidableEq

/-- Driver state at construction: loop running, nothing pending, nothing
delivered. -/
def initState : DriverState := ⟨true, [], []⟩

/-- Modelled from the spec: the observable events of one driver iteration —
a query issuance from a resolver handle, an engine-fired completion callback
(during readiness or timeout processing), a recoverable poll-primitive error,
a fatal poll-primitive error, and the shutdown command. -/
inductive Event where
  | issue (q : Nat)
  | complete (q : Nat) (r : EngineResult)
  | pollRecoverable
  | pollFatal
  | shutdown
  deriving DecidableEq

/-- Fail every outstanding pending query with the driver-shutdown error
(spec sections 4.1 and 7). -/
def failAll (pending : List Nat) : List (Nat × Completion) :=
  pending.map (fun q => (q, Completion.error Error.driverShutdown))

/-- Modelled from the spec: eventloop.rs and resolver.rs are not in the
sources.  One driver transition per event: issuing adds a pending query while
running (and fails immediately with driver-shutdown once the loop is down);
an engine completion callback delivers exactly one entry for a pending query
and removes it from pending; a recoverable poll error is retried with no
visible effect; a fatal poll error and the shutdown command terminate the
loop and fail all outstanding pending queries with driver-shutdown. -/
def step (s : DriverState) (e : Event) : DriverState :=
  match e with
  | .issue q =>
      if s.running then { s with pending := s.pending ++ [q] }
      else { s with completed := s.completed ++ [(q, Completion.error Error.driverShutdown)] }
  | .complete q r =>
      if s.running ∧ q ∈ s.pending then
        { s with pending := s.pending.erase q,
                 completed := s.completed ++ [(q, Completion.ofEngine r)] }
      else s
  | .pollRecoverable => s
  | .pollFatal =>
      if s.running then ⟨false, [], s.completed ++ failAll s.pending⟩ else s
  | .shutdown =>
      if s.running then ⟨false, [], s.completed ++ failAll s.pending⟩ else s

/-- Run the driver over a sequence of events. -/
def run (s : DriverState) (tr : List Event) : DriverState :=
  tr.foldl step s

/-- Ids of the queries issued in a trace, in order. -/
def issuedIds : List Event → List Nat
  | [] => []
  | Event.issue q :: tr => q :: issuedIds tr
  | _ :: tr => issuedIds tr

/-- All query ids a state accounts for: still pending, or already delivered. -/
def allIds (s : DriverState) : List Nat :=
  s.pending ++ s.completed.map Prod.fst

/-- The completions delivered for one query id, in delivery order. -/
def completionsFor (s : DriverState) (q : Nat) : List Completion :=
  (s.completed.filter (fun p => p.1 == q)).map Prod.snd

theorem run_nil (s : DriverState) : run s [] = s := rfl

theorem run_cons (s : DriverState) (e : Event) (tr : List Event) :
    run s (e :: tr) = run (step s e) tr := rfl

theorem issuedIds_append (tr₁ tr₂ : List Event) :
    issuedIds (tr₁ ++ tr₂) = issuedIds tr₁ ++ issuedIds tr₂ := by
  induction tr₁ with
  | nil => simp [issuedIds]
  | cons e tr ih => cases e <;> simp [issuedIds, ih]

theorem map_fst_failAll (pending : List Nat) :
    (failAll pending).map Prod.fst = pending := by
  simp [failAll, Function.comp_def]

/-- Each driver step conserves accounted query ids, adding exactly the ids it
issues: the ids of `step s e` are a permutation of those of `s` plus the ids
issued by `e`. -/
theorem allIds_step_perm (s : DriverState) (e : Event) :
    (allIds (step s e)).Perm (allIds s ++ issuedIds [e]) := by
  cases e with
  | issue q =>
      cases hr : s.running with
      | true =>
          simp only [step, hr, if_true, allIds, issuedIds]
          have h1 : (s.pending ++ [q]) ++ s.completed.map Prod.fst
              = s.pending ++ ([q] ++ s.completed.map Prod.fst) := by
            simp [List.append_assoc]
          rw [h1]
          have h2 : ([q] ++ s.completed.map Prod.fst).Perm
              (s.completed.map Prod.fst ++ [q]) := List.perm_append_comm
          have h3 := h2.append_left s.pending
          simpa [List.append_assoc] using h3
      | false =>
          simp [step, hr, allIds, issuedIds, List.append_assoc]
  | complete q r =>
      by_cases h : s.running ∧ q ∈ s.pending
      · simp only [step, h, if_true, allIds, issuedIds, List.map_append]
        have hq : q ∈ s.pending := h.2
        have hp : s.pending.Perm (q :: s.pending.erase q) := List.perm_cons_erase hq
        have h1 : (s.pending ++ s.completed.map Prod.fst).Perm
            ((q :: s.pending.erase q) ++ s.completed.map Prod.fst) :=
          hp.append_right _
        have h2 : ((s.pending.erase q ++ s.completed.map Prod.fst) ++ [q]).Perm
            (q :: (s.pending.erase q ++ s.completed.map Prod.fst)) :=
          List.perm_append_singleton _ _
        have h4 := h2.trans h1.symm
        simpa [List.append_assoc] using h4
      · simp [step, h, allIds, issuedIds]
  | pollRecoverable => simp [step, allIds, issuedIds]
  | pollFatal =>
      cases hr : s.running with
      | true =>
          simp only [step, hr, if_true, allIds, issuedIds, List.map_append,
            map_fst_failAll, List.nil_append, List.append_nil]
          exact List.perm_append_comm
      | false => simp [step, hr, allIds, issuedIds]
  | shutdown =>
      cases hr : s.running with
      | true =>
          simp only [step, hr, if_true, allIds, issuedIds, List.map_append,
            map_fst_failAll, List.nil_append, List.append_nil]
          exact List.perm_append_comm
      | false => simp [step, hr, allIds, issuedIds]

/-- Running a trace conserves accounted query ids: the ids of `run s tr` are a
permutation of those of `s` plus the ids issued in `tr`. -/
theorem allIds_run_perm (tr : List Event) (s : DriverState) :
    (allIds (run s tr)).Perm (allIds s ++ issuedIds tr) := by
  induction tr generalizing s with
  | nil => simp [run, issuedIds]
  | cons e tr ih =>
      have h1 := allIds_step_perm s e
      have h2 := ih (step s e)
      have h3 : issuedIds [e] ++ issuedIds tr = issuedIds (e :: tr) := by
        cases e <;> simp [issuedIds]
      have h4 : (allIds s ++ issuedIds [e]) ++ issuedIds tr
          = allIds s ++ issuedIds (e :: tr) := by
        rw [List.append_assoc, h3]
      rw [run_cons]
      exact h2.trans (h4 ▸ h1.append_right (issuedIds tr))

/-- Once the loop has stopped running, no query is left pending. -/
theorem pending_nil_of_not_running_step (s : DriverState) (e : Event)
    (h : s.running = false → s.pending = []) :
    (step s e).running = false → (step s e).pending = [] := by
  cases e with
  | issue q => cases hr : s.running <;> simp [step, hr, h]
  | complete q r =>
      by_cases hc : s.running ∧ q ∈ s.pending
      · intro hf
        simp only [step, hc, if_true] at hf ⊢
        exact absurd hf (by simp [hc.1])
      · simpa [step, hc] using h
  | pollRecoverable => simpa [step] using h
  | pollFatal => cases hr : s.running <;> simp [step, hr, h]
  | shutdown => cases hr : s.running <;> simp [step, hr, h]

theorem pending_nil_of_not_running_run (tr : List Event) (s : DriverState)
    (h : s.running = false → s.pending = []) :
    (run s tr).running = false → (run s tr).pending = [] := by
  induction tr generalizing s with
  | nil => simpa [run] using h
  | cons e tr ih =>
      rw [run_cons]
      exact ih (step s e) (pending_nil_of_not_running_step s e h)

/-- Counting delivered completions for a query id. -/
theorem completionsFor_length (s : DriverState) (q : Nat) :
    (completionsFor s q).length = (s.completed.map Prod.fst).count q := by
  simp only [completionsFor, List.length_map]
  induction s.completed with
  | nil => simp
  | cons a l ih =>
      by_cases h : a.1 = q
      · simp [List.filter_cons, h, List.count_cons, ih]
      · simp [List.filter_cons, h, List.count_cons, ih]

theorem run_append_shutdown (tr : List Event) :
    run initState (tr ++ [Event.shutdown]) = step (run initState tr) Event.shutdown := by
  simp [run, List.foldl_append]

/-- Claim C1: for every query issued in a trace (with distinct query ids, as
each pending query is a distinct record), completion is delivered exactly
once: after the trace plus driver teardown, the query's delivery channel
holds exactly one completion — a parsed result or a typed error — and at no
earlier point was the callback invoked more than once. -/
theorem exactly_once_completion (tr : List Event) (q : Nat)
    (hnd : (issuedIds tr).Nodup) (hq : q ∈ issuedIds tr) :
    (∃ c : Completion,
        completionsFor (run initState (tr ++ [Event.shutdown])) q = [c] ∧
        ((∃ p, c = Completion.value p) ∨ (∃ e, c = Completion.error e))) ∧
    (completionsFor (run initState tr) q).length ≤ 1 := by
  have hcount : (issuedIds tr).count q = 1 := List.count_eq_one_of_mem hnd hq
  constructor
  · rw [run_append_shutdown]
    have hpend : (step (run initState tr) Event.shutdown).pending = [] := by
      cases hr : (run initState tr).running with
      | true => simp [step, hr]
      | false =>
          have hnil := pending_nil_of_not_running_run tr initState (by simp [initState]) hr
          simp [step, hr, hnil]
    have hperm := allIds_run_perm (tr ++ [Event.shutdown]) initState
    have hc1 : (allIds (step (run initState tr) Event.shutdown)).count q = 1 := by
      rw [← run_append_shutdown]
      have hce := hperm.count_eq q
      simpa [allIds, initState, issuedIds_append, issuedIds, hcount] using hce
    have hlen : (completionsFor (step (run initState tr) Event.shutdown) q).length = 1 := by
      rw [completionsFor_length]
      have hall : allIds (step (run initState tr) Event.shutdown)
          = (step (run initState tr) Event.shutdown).completed.map Prod.fst := by
        simp [allIds, hpend]
      rw [← hall]
      exact hc1
    obtain ⟨c, hc⟩ := List.length_eq_one.mp hlen
    refine ⟨c, hc, ?_⟩
    cases c with
    | value p => exact Or.inl ⟨p, rfl⟩
    | error e => exact Or.inr ⟨e, rfl⟩
  · have hperm := allIds_run_perm tr initState
    have h2 : (allIds (run initState tr)).count q = 1 := by
      have hce := hperm.count_eq q
      simpa [allIds, initState, hcount] using hce
    rw [completionsFor_length]
    have h3 : (allIds (run initState tr)).count q
        = (run initState tr).pending.count q
          + ((run initState tr).completed.map Prod.fst).count q := by
      simp [allIds, List.count_append]
    omega

/-- Concrete instantiation of exactly-once delivery: a single issued query,
completed by the engine, is delivered exactly once across teardown. -/
theorem exactly_once_completion_witness :
    (∃ c : Completion,
        completionsFor
          (run initState ([Event.issue 3, Event.complete 3 (EngineResult.success 7)]
            ++ [Event.shutdown])) 3 = [c] ∧
        ((∃ p, c = Completion.value p) ∨ (∃ e, c = Completion.error e))) ∧
    (completionsFor (run initState [Event.issue 3, Event.complete 3 (EngineResult.success 7)]) 3).length ≤ 1 :=
  exactly_once_completion [Event.issue 3, Event.complete 3 (EngineResult.success 7)] 3
    (by decide) (by decide)

/-- Claim C2: engine failures are delivered in-band, as a typed error value,
through the same completion channel that carries success values: a completion
callback for a pending query appends exactly one entry to the delivery
channel, with failure codes passed through unchanged as typed errors, the
state change otherwise identical to the success case; no out-of-band failure
mode exists. -/
theorem errors_delivered_in_band (s : DriverState) (q : Nat)
    (hr : s.running = true) (hp : q ∈ s.pending) :
    (∀ r : EngineResult,
        (step s (Event.complete q r)).completed
            = s.completed ++ [(q, Completion.ofEngine r)] ∧
        (step s (Event.complete q r)).pending = s.pending.erase q ∧
        (step s (Event.complete q r)).running = s.running) ∧
    (∀ code, Completion.ofEngine (EngineResult.failure code)
        = Completion.error (Error.engineError code)) ∧
    (∀ p, Completion.ofEngine (EngineResult.success p) = Completion.value p) := by
  refine ⟨fun r => ?_, fun _ => rfl, fun _ => rfl⟩
  have hc : s.running = true ∧ q ∈ s.pending := ⟨hr, hp⟩
  refine ⟨?_, ?_, ?_⟩ <;> simp [step, hc, hr]

/-- Concrete instantiation: a canned engine failure with code 4 arrives as the
typed error entry on the delivery channel. -/
theorem errors_delivered_in_band_witness :
    (step ⟨true, [2], []⟩ (Event.complete 2 (EngineResult.failure 4))).completed
        = [(2, Completion.error (Error.engineError 4))] :=
  ((errors_delivered_in_band ⟨true, [2], []⟩ 2 rfl (by decide)).1
    (EngineResult.failure 4)).1

/-- No entry of the delivery channel ever carries the internal poll-failure
classification. -/
def NoPollFailureLeak (s : DriverState) : Prop :=
  ∀ entry ∈ s.completed, entry.2 ≠ Completion.error Error.pollFailure

theorem ofEngine_ne_pollFailure (r : EngineResult) :
    Completion.ofEngine r ≠ Completion.error Error.pollFailure := by
  cases r <;> simp [Completion.ofEngine]

theorem noPollFailureLeak_step (s : DriverState) (e : Event)
    (h : NoPollFailureLeak s) : NoPollFailureLeak (step s e) := by
  cases e with
  | issue q =>
      cases hr : s.running with
      | true => simpa [NoPollFailureLeak, step, hr] using h
      | false =>
          intro entry hm
          simp only [step, hr] at hm
          simp only [Bool.false_eq_true, if_false, List.mem_append,
            List.mem_singleton] at hm
          rcases hm with hm | hm
          · exact h entry hm
          · subst hm; simp
  | complete q r =>
      by_cases hc : s.running = true ∧ q ∈ s.pending
      · intro entry hm
        have hstep : step s (Event.complete q r)
            = { s with pending := s.pending.erase q,
                       completed := s.completed ++ [(q, Completion.ofEngine r)] } := by
          simp [step, hc]
        rw [hstep] at hm
        rw [List.mem_append] at hm
        rcases hm with hm | hm
        · exact h entry hm
        · rw [List.mem_singleton] at hm
          subst hm; exact ofEngine_ne_pollFailure r
      · simpa [NoPollFailureLeak, step, hc] using h
  | pollRecoverable => simpa [NoPollFailureLeak, step] using h
  | pollFatal =>
      cases hr : s.running with
      | true =>
          intro entry hm
          simp only [step, hr, if_true, List.mem_append] at hm
          rcases hm with hm | hm
          · exact h entry hm
          · simp only [failAll, List.mem_map] at hm
            obtain ⟨x, _, hx⟩ := hm
            subst hx; simp
      | false => simpa [NoPollFailureLeak, step, hr] using h
  | shutdown =>
      cases hr : s.running with
      | true =>
          intro entry hm
          simp only [step, hr, if_true, List.mem_append] at hm
          rcases hm with hm | hm
          · exact h entry hm
          · simp only [failAll, List.mem_map] at hm
            obtain ⟨x, _, hx⟩ := hm
            subst hx; simp
      | false => simpa [NoPollFailureLeak, step, hr] using h

theorem noPollFailureLeak_run (tr : List Event) (s : DriverState)
    (h : NoPollFailureLeak s) : NoPollFailureLeak (run s tr) := by
  induction tr generalizing s with
  | nil => simpa [run] using h
  | cons e tr ih =>
      rw [run_cons]
      exact ih (step s e) (noPollFailureLeak_step s e h)

/-- Claim C3: a recoverable poll error is retried with no caller-visible
effect (driver state unchanged); a fatal poll error tears the loop down and
fails every outstanding pending query with the driver-shutdown error; and in
no reachable state is the raw internal poll-failure classification ever
delivered outward. -/
theorem poll_failure_semantics :
    (∀ s : DriverState, step s Event.pollRecoverable = s) ∧
    (∀ s : DriverState, s.running = true →
        (step s Event.pollFatal).running = false ∧
        (step s Event.pollFatal).pending = [] ∧
        (step s Event.pollFatal).completed = s.completed ++ failAll s.pending ∧
        (∀ q ∈ s.pending,
            (q, Completion.error Error.driverShutdown)
              ∈ (step s Event.pollFatal).completed)) ∧
    (∀ tr : List Event, ∀ entry ∈ (run initState tr).completed,
        entry.2 ≠ Completion.error Error.pollFailure) := by
  refine ⟨fun s => rfl, fun s hr => ?_, fun tr => ?_⟩
  · refine ⟨by simp [step, hr], by simp [step, hr], by simp [step, hr], ?_⟩
    intro q hq
    simp only [step, hr, if_true, List.mem_append]
    refine Or.inr ?_
    have hmem : (q, Completion.error Error.driverShutdown)
        ∈ s.pending.map (fun x => (x, Completion.error Error.driverShutdown)) :=
      List.mem_map.mpr ⟨q, hq, rfl⟩
    simpa [failAll] using hmem
  · exact noPollFailureLeak_run tr initState (by intro entry hm; simp [initState] at hm)

/-- Concrete instantiation: a fatal poll error with one outstanding query
tears the loop down and delivers the driver-shutdown error for that query. -/
theorem poll_failure_semantics_witness :
    step ⟨true, [5], []⟩ Event.pollRecoverable = ⟨true, [5], []⟩ ∧
    (step ⟨true, [5], []⟩ Event.pollFatal).running = false ∧
    (5, Completion.error Error.driverShutdown)
      ∈ (step ⟨true, [5], []⟩ Event.pollFatal).completed :=
  ⟨poll_failure_semantics.1 ⟨true, [5], []⟩,
   (poll_failure_semantics.2.1 ⟨true, [5], []⟩ rfl).1,
   (poll_failure_semantics.2.1 ⟨true, [5], []⟩ rfl).2.2.2 5 (by decide)⟩

/-- Claim C6: the shutdown command is idempotent — from any driver state,
issuing it a second time leaves the state unchanged (a no-op, not an
error). -/
theorem shutdown_idempotent (s : DriverState) :
    step (step s Event.shutdown) Event.shutdown = step s Event.shutdown := by
  cases hr : s.running <;> simp [step, hr]

/-- Modelled from the spec: resolver.rs is not in the sources.  Resolver
destruction triggers driver shutdown and joins the background thread, so the
state it leaves is the driver's final state. -/
def destroyResolver (s : DriverState) : DriverState :=
  step s Event.shutdown

/-- Claim C7: destroying the resolver shuts the driver down and joins the
thread: afterwards the loop is not running and nothing is pending; every
query pending at destruction has been delivered the driver-shutdown error;
every completion already delivered (a genuine engine result) is preserved;
and no engine completion callback can fire after destruction (a completion
event on the destroyed state is a no-op). -/
theorem destruction_joins_and_completes (tr : List Event) :
    (destroyResolver (run initState tr)).running = false ∧
    (destroyResolver (run initState tr)).pending = [] ∧
    (∀ q ∈ (run initState tr).pending,
        (q, Completion.error Error.driverShutdown)
          ∈ (destroyResolver (run initState tr)).completed) ∧
    (∀ entry ∈ (run initState tr).completed,
        entry ∈ (destroyResolver (run initState tr)).completed) ∧
    (∀ q r, step (destroyResolver (run initState tr)) (Event.complete q r)
        = destroyResolver (run initState tr)) := by
  set s := run initState tr with hs
  have hnil : s.running = false → s.pending = [] := by
    rw [hs]
    exact pending_nil_of_not_running_run tr initState (by simp [initState])
  have hrun : (destroyResolver s).running = false := by
    cases hr : s.running <;> simp [destroyResolver, step, hr]
  refine ⟨hrun, ?_, ?_, ?_, ?_⟩
  · cases hr : s.running with
    | true => simp [destroyResolver, step, hr]
    | false => simp [destroyResolver, step, hr, hnil hr]
  · intro q hq
    cases hr : s.running with
    | true =>
        simp only [destroyResolver, step, hr, if_true]
        rw [List.mem_append]
        refine Or.inr ?_
        have hmem : (q, Completion.error Error.driverShutdown)
            ∈ s.pending.map (fun x => (x, Completion.error Error.driverShutdown)) :=
          List.mem_map.mpr ⟨q, hq, rfl⟩
        simpa [failAll] using hmem
    | false => simp [hnil hr] at hq
  · intro entry hm
    cases hr : s.running with
    | true =>
        simp only [destroyResolver, step, hr, if_true]
        rw [List.mem_append]
        exact Or.inl hm
    | false => simpa [destroyResolver, step, hr] using hm
  · intro q r
    have hrf : (destroyResolver s).running = true → False := by
      rw [hrun]; intro hcontra; exact absurd hcontra (by simp)
    have hcond : ¬((destroyResolver s).running = true
        ∧ q ∈ (destroyResolver s).pending) := fun hcontra => hrf hcontra.1
    simp [step, hcond]

/-- Concrete instantiation: destruction with one in-flight query delivers the
driver-shutdown error for it and ignores a late engine completion. -/
theorem destruction_joins_and_completes_witness :
    (9, Completion.error Error.driverShutdown)
      ∈ (destroyResolver (run initState [Event.issue 9])).completed ∧
    step (destroyResolver (run initState [Event.issue 9]))
        (Event.complete 9 (EngineResult.success 1))
      = destroyResolver (run initState [Event.issue 9]) :=
  ⟨(destruction_joins_and_completes [Event.issue 9]).2.2.1 9 (by decide),
   (destruction_joins_and_completes [Event.issue 9]).2.2.2.2 9 (EngineResult.success 1)⟩

/-- The completion recorded for a query id, as read from a driver state's
delivery channel (none while the callback has not yet fired). -/
def slotContent (s : DriverState) (q : Nat) : Option Completion :=
  (s.completed.find? (fun p => p.1 == q)).map Prod.snd

/-- Spec section 4.2: the delivery the callback resolver makes to the
user-supplied callback for query `q`, against a fixed engine state mapping
each query to its canned outcome: the engine issues the query, the driver
polls, and the engine fires the completion callback during processing. -/
def callbackDelivery (engine : Nat → EngineResult) (q : Nat) : Option Completion :=
  slotContent (run initState [Event.issue q, Event.complete q (engine q)]) q

/-- The states a driver run passes through, in order. -/
def statesFrom (s : DriverState) : List Event → List DriverState
  | [] => [s]
  | e :: tr => s :: statesFrom (step s e) tr

/-- Modelled from the spec: blockingresolver.rs is not in the sources.  The
blocking wait: the calling thread blocks until the internal callback has
recorded a result into the slot, then returns that result; while no state
shows a recorded result, the call has not returned. -/
def blockingWait (q : Nat) : List DriverState → Option Completion
  | [] => none
  | s :: rest =>
      match slotContent s q with
      | some c => some c
      | none => blockingWait q rest

/-- Modelled from the spec: blockingresolver.rs is not in the sources.  A
blocking resolver call wraps the callback resolver: it issues the query with
an internal callback recording into a slot, blocks until the slot is set, and
returns the recorded completion directly from the call. -/
def blockingCall (engine : Nat → EngineResult) (q : Nat) : Option Completion :=
  blockingWait q
    (statesFrom initState [Event.issue q, Event.complete q (engine q)])

/-- Claim C4: the blocking call returns only after the query has completed —
before the engine fires the completion, the blocking wait yields nothing —
and the payload (or typed error) it returns equals exactly what the callback
resolver would deliver for the identical query against the identical engine
state. -/
theorem blocking_matches_callback (engine : Nat → EngineResult) (q : Nat) :
    blockingWait q (statesFrom initState [Event.issue q]) = none ∧
    blockingCall engine q = callbackDelivery engine q ∧
    callbackDelivery engine q = some (Completion.ofEngine (engine q)) := by
  refine ⟨?_, ?_, ?_⟩
  · simp [statesFrom, blockingWait, slotContent, step, initState, List.find?]
  · simp [blockingCall, callbackDelivery, statesFrom, blockingWait, slotContent,
      run, step, initState, List.find?]
  · simp [callbackDelivery, slotContent, run, step, initState, List.find?]

/-- Modelled from the spec: futureresolver.rs is not in the sources.  Future
facade state: the underlying driver plus the set of query ids whose returned
future handle has been dropped (interest discarded). -/
structure FutureFacadeState where
  driver : DriverState
  dropped : List Nat
  deriving DecidableEq

/-- Modelled from the spec: dropping the returned future handle before
resolution only discards interest in the result; it touches no driver state
and issues no cancellation (the engine has none). -/
def dropHandle (fs : FutureFacadeState) (q : Nat) : FutureFacadeState :=
  { fs with dropped := q :: fs.dropped }

/-- A driver event as seen through the future facade: the driver steps, the
set of dropped handles is untouched. -/
def facadeStep (fs : FutureFacadeState) (e : Event) : FutureFacadeState :=
  { fs with driver := step fs.driver e }

/-- What the future facade hands its consumer for query `q`: nothing if the
handle was dropped (the recorded result is silently discarded), otherwise the
completion the underlying callback recorded. -/
def futureDelivery (fs : FutureFacadeState) (q : Nat) : Option Completion :=
  if q ∈ fs.dropped then none else slotContent fs.driver q

/-- Claim C5: dropping an in-flight future handle does not cancel the
underlying engine query and alters no driver state: dropping any handle
leaves the driver component untouched; after the drop, the underlying
completion callback for the dropped query still fires (its entry is
recorded), the recorded result is discarded rather than delivered, and an
unrelated query on the same resolver still completes and is delivered
normally. -/
theorem drop_does_not_cancel (q q₂ : Nat) (r r₂ : EngineResult) (hne : q₂ ≠ q) :
    (∀ fs : FutureFacadeState, ∀ x, (dropHandle fs x).driver = fs.driver) ∧
    (q, Completion.ofEngine r) ∈
      (facadeStep
        (facadeStep (dropHandle ⟨run initState [Event.issue q, Event.issue q₂], []⟩ q)
          (Event.complete q r))
        (Event.complete q₂ r₂)).driver.completed ∧
    futureDelivery
      (facadeStep
        (facadeStep (dropHandle ⟨run initState [Event.issue q, Event.issue q₂], []⟩ q)
          (Event.complete q r))
        (Event.complete q₂ r₂)) q = none ∧
    futureDelivery
      (facadeStep
        (facadeStep (dropHandle ⟨run initState [Event.issue q, Event.issue q₂], []⟩ q)
          (Event.complete q r))
        (Event.complete q₂ r₂)) q₂ = some (Completion.ofEngine r₂) := by
  have hne2 : q ≠ q₂ := Ne.symm hne
  have hq2q : (q₂ == q) = false := by simp [hne]
  have hqq2 : (q == q₂) = false := by simp [hne2]
  have hrun : run initState [Event.issue q, Event.issue q₂]
      = ⟨true, [q, q₂], []⟩ := by
    simp [run, step, initState]
  refine ⟨fun fs x => rfl, ?_, ?_, ?_⟩
  · simp [hrun, facadeStep, dropHandle, step, List.erase_cons, hne, hq2q]
  · simp [futureDelivery, dropHandle, facadeStep]
  · simp [hrun, facadeStep, dropHandle, futureDelivery, slotContent, step,
      List.erase_cons, hne, hq2q, hqq2, List.find?]

/-- Concrete instantiation: dropping the handle for query 0 while query 1 is
also in flight — query 0's callback still records its entry, its result is
discarded, and query 1 resolves normally. -/
theorem drop_does_not_cancel_witness :
    (0, Completion.ofEngine (EngineResult.success 7)) ∈
      (facadeStep
        (facadeStep (dropHandle ⟨run initState [Event.issue 0, Event.issue 1], []⟩ 0)
          (Event.complete 0 (EngineResult.success 7)))
        (Event.complete 1 (EngineResult.failure 4))).driver.completed ∧
    futureDelivery
      (facadeStep
        (facadeStep (dropHandle ⟨run initState [Event.issue 0, Event.issue 1], []⟩ 0)
          (Event.complete 0 (EngineResult.success 7)))
        (Event.complete 1 (EngineResult.failure 4))) 1
      = some (Completion.ofEngine (EngineResult.failure 4)) :=
  ⟨(drop_does_not_cancel 0 1 (EngineResult.success 7) (EngineResult.failure 4)
      (by decide)).2.1,
   (drop_does_not_cancel 0 1 (EngineResult.success 7) (EngineResult.failure 4)
      (by decide)).2.2.2⟩

/-- Modelled from the spec: resolver.rs's search operations are not in the
sources; per the crate documentation, `search_xxx` corresponds to the engine
function that initiates a series of single-question queries using the
channel's search domains as well as a host alias file given by the HOSTALIAS
environment variable.  `hostAliases` is the alias lookup read from the file
named by that variable; when the name has an alias the alias alone is
queried, otherwise one single-question attempt is made per search domain, in
order, before falling back to the literal name. -/
def searchAttempts (hostAliases : String → Option String)
    (searchDomains : List String) (name : String) : List String :=
  match hostAliases name with
  | some aliasName => [aliasName]
  | none => searchDomains.map (fun d => name ++ "." ++ d) ++ [name]

/-- Claim C8: a search operation is a series of single-question queries drawn
from the channel's search domains and the HOSTALIAS alias file: with search
domains ["corp.test"] and no alias, searching "host" attempts
"host.corp.test" before falling back to "host"; every configured search
domain contributes its single-question attempt; and an alias for the name
short-circuits the series. -/
theorem search_uses_domains_and_aliases :
    searchAttempts (fun _ => none) ["corp.test"] "host"
        = ["host.corp.test", "host"] ∧
    (∀ domains : List String, ∀ name d : String, d ∈ domains →
        (name ++ "." ++ d) ∈ searchAttempts (fun _ => none) domains name) ∧
    (∀ hostAliases : String → Option String, ∀ name aliasName : String,
        hostAliases name = some aliasName →
        searchAttempts hostAliases [] name = [aliasName]) := by
  refine ⟨rfl, ?_, ?_⟩
  · intro domains name d hd
    simp only [searchAttempts]
    rw [List.mem_append]
    exact Or.inl (List.mem_map.mpr ⟨d, hd, rfl⟩)
  · intro hostAliases name aliasName ha
    simp [searchAttempts, ha]

/-- Concrete instantiation: the fixture scenario with search-domain list
["corp.test"], and an alias file mapping "www" to "web.example". -/
theorem search_uses_domains_and_aliases_witness :
    ("host" ++ "." ++ "corp.test")
      ∈ searchAttempts (fun _ => none) ["corp.test"] "host" ∧
    searchAttempts (fun n => if n = "www" then some "web.example" else none) []
        "www" = ["web.example"] :=
  ⟨search_uses_domains_and_aliases.2.1 ["corp.test"] "host" "corp.test" (by decide),
   search_uses_domains_and_aliases.2.2
     (fun n => if n = "www" then some "web.example" else none) "www" "web.example"
     (by decide)⟩

/-- The engine entry points (spec sections 3 and 6): issuing a query,
processing descriptor readiness, processing a timeout. -/
inductive EngineEntry where
  | issueQuery
  | processReadiness
  | processTimeout
  deriving DecidableEq

/-- Modelled from the spec: eventloop.rs and resolver.rs are not in the
sources.  Concurrency state of the engine access discipline: who (by thread
id) holds the serialized engine entry lock, and which threads are currently
executing inside which engine entry point. -/
structure ConcState where
  lockHolder : Option Nat
  inEngine : List (Nat × EngineEntry)
  deriving DecidableEq

/-- The interleaved thread events: acquiring and releasing the serialized
entry lock, and entering or leaving an engine entry point. -/
inductive ConcEvent where
  | acquire (t : Nat)
  | enterEngine (t : Nat) (e : EngineEntry)
  | exitEngine (t : Nat)
  | release (t : Nat)
  deriving DecidableEq

/-- Modelled from the spec: the engine is reached only through the serialized
entry point — a thread enters an engine entry point only while holding the
lock, and engine work is consumed solely by the Driver thread (spec sections
3, 5 and 9); callers instead push commands and signal the wake channel.
Lock release waits for engine work in progress to finish. -/
def concStep (driverTid : Nat) (s : ConcState) (ev : ConcEvent) : ConcState :=
  match ev with
  | .acquire t =>
      if s.lockHolder = none then { s with lockHolder := some t } else s
  | .enterEngine t e =>
      if s.lockHolder = some t ∧ t = driverTid then
        { s with inEngine := (t, e) :: s.inEngine }
      else s
  | .exitEngine t =>
      { s with inEngine := s.inEngine.filter (fun x => x.1 != t) }
  | .release t =>
      if s.lockHolder = some t ∧ s.inEngine = [] then
        { s with lockHolder := none }
      else s

/-- Concurrency state at construction: lock free, nobody inside the engine. -/
def concInit : ConcState := ⟨none, []⟩

/-- Run the concurrency model over an interleaving of thread events. -/
def concRun (driverTid : Nat) (tr : List ConcEvent) : ConcState :=
  tr.foldl (concStep driverTid) concInit

/-- The access-discipline invariant: whoever is inside the engine is the
Driver thread and holds the serialized entry lock. -/
def EngineDiscipline (driverTid : Nat) (s : ConcState) : Prop :=
  ∀ x ∈ s.inEngine, x.1 = driverTid ∧ s.lockHolder = some driverTid

theorem engineDiscipline_step (driverTid : Nat) (s : ConcState) (ev : ConcEvent)
    (h : EngineDiscipline driverTid s) :
    EngineDiscipline driverTid (concStep driverTid s ev) := by
  cases ev with
  | acquire t =>
      by_cases hc : s.lockHolder = none
      · intro x hx
        simp only [concStep, hc, if_true] at hx ⊢
        have hcontra := h x hx
        rw [hc] at hcontra
        exact absurd hcontra.2 (by simp)
      · simpa [EngineDiscipline, concStep, hc] using h
  | enterEngine t e =>
      by_cases hc : s.lockHolder = some t ∧ t = driverTid
      · have hstep : concStep driverTid s (ConcEvent.enterEngine t e)
            = { s with inEngine := (t, e) :: s.inEngine } := by
          simp [concStep, hc]
        intro x hx
        rw [hstep] at hx ⊢
        simp only at hx ⊢
        have hlock : s.lockHolder = some driverTid := hc.2 ▸ hc.1
        rcases List.mem_cons.mp hx with hx | hx
        · subst hx
          exact ⟨hc.2, hlock⟩
        · exact ⟨(h x hx).1, hlock⟩
      · simpa [EngineDiscipline, concStep, hc] using h
  | exitEngine t =>
      intro x hx
      simp only [concStep] at hx ⊢
      exact h x (List.mem_of_mem_filter hx)
  | release t =>
      by_cases hc : s.lockHolder = some t ∧ s.inEngine = []
      · have hstep : concStep driverTid s (ConcEvent.release t)
            = { s with lockHolder := none } := by
          simp [concStep, hc]
        intro x hx
        rw [hstep] at hx
        simp only at hx
        rw [hc.2] at hx
        exact absurd hx (List.not_mem_nil x)
      · simpa [EngineDiscipline, concStep, hc] using h

theorem engineDiscipline_run (driverTid : Nat) (tr : List ConcEvent) :
    EngineDiscipline driverTid (concRun driverTid tr) := by
  have hgen : ∀ (l : List ConcEvent) (s : ConcState), EngineDiscipline driverTid s →
      EngineDiscipline driverTid (l.foldl (concStep driverTid) s) := by
    intro l
    induction l with
    | nil => intro s hs; simpa using hs
    | cons e l ih =>
        intro s hs
        exact ih (concStep driverTid s e) (engineDiscipline_step driverTid s e hs)
  exact hgen tr concInit (by intro x hx; simp [concInit] at hx)

/-- Claim C9: in every reachable interleaving — over any number of caller
threads, eight or more included — at most one thread is inside the engine at
any instant (any two threads executing engine entry points coincide), all
engine entry points are mutually exclusive (whoever is inside holds the
single serialized entry lock), and only the Driver thread ever executes an
engine-mutating entry point. -/
theorem engine_mutual_exclusion (driverTid : Nat) (tr : List ConcEvent) :
    (∀ x ∈ (concRun driverTid tr).inEngine, x.1 = driverTid) ∧
    (∀ x ∈ (concRun driverTid tr).inEngine, ∀ y ∈ (concRun driverTid tr).inEngine,
        x.1 = y.1) ∧
    (∀ x ∈ (concRun driverTid tr).inEngine,
        (concRun driverTid tr).lockHolder = some x.1) := by
  have h := engineDiscipline_run driverTid tr
  refine ⟨fun x hx => (h x hx).1, fun x hx y hy => ?_, fun x hx => ?_⟩
  · rw [(h x hx).1, (h y hy).1]
  · rw [(h x hx).2, (h x hx).1]

/-- Concrete instantiation: an interleaving where eight caller threads race
to acquire the lock while the Driver (thread 0) performs readiness
processing — whoever is inside the engine is the Driver. -/
theorem engine_mutual_exclusion_witness :
    ∀ x ∈ (concRun 0
        [ConcEvent.acquire 1, ConcEvent.acquire 2, ConcEvent.acquire 3,
         ConcEvent.acquire 4, ConcEvent.acquire 5, ConcEvent.acquire 6,
         ConcEvent.acquire 7, ConcEvent.acquire 8, ConcEvent.release 1,
         ConcEvent.acquire 0,
         ConcEvent.enterEngine 0 EngineEntry.processReadiness]).inEngine,
      x.1 = 0 :=
  (engine_mutual_exclusion 0
    [ConcEvent.acquire 1, ConcEvent.acquire 2, ConcEvent.acquire 3,
     ConcEvent.acquire 4, ConcEvent.acquire 5, ConcEvent.acquire 6,
     ConcEvent.acquire 7, ConcEvent.acquire 8, ConcEvent.release 1,
     ConcEvent.acquire 0,
     ConcEvent.enterEngine 0 EngineEntry.processReadiness]).1

/-- The compilation targets of src/lib.rs: the platform-specific polling
module is selected at build time by conditional compilation. -/
inductive Platform where
  | unix
  | windows
  deriving DecidableEq

/-- The modules src/lib.rs declares (lines 59-71), none of them public: the
seven unconditional `mod` items plus the cfg-gated platform polling
module. -/
def declaredModules (p : Platform) : List String :=
  ["blockingresolver", "error", "eventloop", "futureresolver", "host",
   "nameinfo", "resolver"] ++
  (match p with
   | .unix => ["unix"]
   | .windows => ["windows"])

/-- The `pub use` re-exports of src/lib.rs (lines 73-78), as
(source module, item) pairs, in source order. -/
def reExports : List (String × String) :=
  [("blockingresolver", "BlockingResolver"),
   ("error", "Error"),
   ("futureresolver", "CAresFuture"),
   ("futureresolver", "FutureResolver"),
   ("host", "HostResults"),
   ("nameinfo", "NameInfoResult"),
   ("resolver", "Options"),
   ("resolver", "Resolver")]

/-- The crate's public interface: exactly the re-exported items. -/
def publicItems : List String :=
  reExports.map Prod.snd

/-- Claim C10: the crate's public interface is exactly the eight re-exported
items — BlockingResolver, Error, CAresFuture, FutureResolver, HostResults,
NameInfoResult, Options, Resolver — pairwise distinct, so the three resolver
facades are three distinct public types; every re-export is drawn from a
declared (private) module, and on either platform the driver module
"eventloop" and the platform polling modules "unix"/"windows" are declared
but not among the public items. -/
theorem public_interface_exact :
    publicItems = ["BlockingResolver", "Error", "CAresFuture", "FutureResolver",
        "HostResults", "NameInfoResult", "Options", "Resolver"] ∧
    publicItems.length = 8 ∧
    publicItems.Nodup ∧
    ("Resolver" ∈ publicItems ∧ "FutureResolver" ∈ publicItems ∧
      "BlockingResolver" ∈ publicItems) ∧
    (∀ p : Platform, ∀ re ∈ reExports, re.1 ∈ declaredModules p) ∧
    (∀ p : Platform, "eventloop" ∈ declaredModules p ∧ "eventloop" ∉ publicItems) ∧
    ("unix" ∈ declaredModules Platform.unix ∧
      "windows" ∈ declaredModules Platform.windows ∧
      "unix" ∉ publicItems ∧ "windows" ∉ publicItems) := by
  refine ⟨rfl, rfl, by decide, by decide, fun p => ?_, fun p => ?_, by decide⟩
  · cases p <;> decide
  · cases p <;> decide

/-- Concrete instantiation: on the unix target, the blocking resolver's
re-export is drawn from a declared module. -/
theorem public_interface_exact_witness :
    ("blockingresolver", "BlockingResolver").1 ∈ declaredModules Platform.unix :=
  public_interface_exact.2.2.2.2.1 Platform.unix
    ("blockingresolver", "BlockingResolver") (by decide)

end CAresResolver
